import Mathlib

/-!
Verification of the durin fault-dispute-game solver.

A shallow embedding of the core of `anton-rs/durin` (crates/fault):

* the generalized-index position algebra over `u128` (`position.rs` / `types.rs`,
  `impl Gindex for Position`);
* the chess-clock accessors (`clock.rs`);
* the alpha claim solver (`solvers/alpha.rs`, `AlphaClaimSolver::solve_claim`);
* the chad claim solver (`solvers/alpha_chad.rs`, `ChadClaimSolver::solve_claim`);
* the resolver (`state.rs`, `FaultDisputeState::resolve`).

Machine integers are embedded as `Nat` with explicit `% 2^w` where Rust wraps
(shifts always discard overflowing bits, `as u64` truncates); `u8`/`u64`/`u128`
subtraction is embedded as truncated `Nat` subtraction (the claims checked here
stay inside the domain where the Rust code does not panic on underflow).
Fallible trace-provider calls are embedded as `Option`-valued oracles and the
fallible solver/resolver entry points return `Except`.
-/

/-- The sentinel `u32::MAX`, the `parent_index` sentinel marking a root claim. -/
def U32_MAX : Nat := 2 ^ 32 - 1

/-- The constant `u64::MAX`, the initial `left_most_trace_index` in `resolve`. -/
def U64_MAX : Nat := 2 ^ 64 - 1

/-- The modulus of `u64` arithmetic. -/
def U64_MOD : Nat := 2 ^ 64

/-- The modulus of `u128` arithmetic. -/
def U128_MOD : Nat := 2 ^ 128

/- `pub type Position = u128;` (a generalized index) and `Claim` (a 32-byte
commitment, `alloy_primitives::B256`, opaque and only compared for equality)
are both embedded as plain `Nat`. -/

namespace Gindex

/-- Fuel-driven floor-log₂: `depthAux fuel p` halves `p` at most `fuel` times.
Structural recursion so that it evaluates by kernel reduction. -/
def depthAux : Nat → Nat → Nat
  | 0, _ => 0
  | fuel + 1, p => if p < 2 then 0 else depthAux fuel (p / 2) + 1

/-- Rust: `fn depth(&self) -> u8 { 127 - self.leading_zeros() as u8 }`:
for `1 ≤ p < 2^128` this is the index of the highest set bit, i.e. `Nat.log2 p`
(`depth_eq_log2` below); 128 units of fuel cover the width of `u128`. -/
def depth (p : Nat) : Nat := depthAux 128 p

/-- Rust: `fn index_at_depth(&self) -> u64 { (self - (1 << self.depth())) as u64 }`
(the cast to `u64` truncates, hence the `% 2^64`). -/
def index_at_depth (p : Nat) : Nat := (p - 2 ^ depth p) % U64_MOD

/-- Rust: `fn left(&self) -> Self { self << 1 }` (u128 shift discards the top bit). -/
def left (p : Nat) : Nat := (p <<< 1) % U128_MOD

/-- Rust: `fn right(&self) -> Self { self.left() | 1 }` -/
def right (p : Nat) : Nat := left p ||| 1

/-- Rust: `fn parent(&self) -> Self { self >> 1 }` -/
def parent (p : Nat) : Nat := p >>> 1

/-- Rust: `fn right_index(&self, max_depth: u8) -> Self`:
`let remaining = max_depth - self.depth(); (self << remaining) | ((1 << remaining) - 1)`.
`remaining` is inlined; both shifts wrap at 128 bits. -/
def right_index (p : Nat) (max_depth : Nat) : Nat :=
  ((p <<< (max_depth - depth p)) % U128_MOD) |||
    (((1 <<< (max_depth - depth p)) % U128_MOD) - 1)

/-- Rust: `fn trace_index(&self, max_depth: u8) -> u64 { self.right_index(max_depth).index_at_depth() }` -/
def trace_index (p : Nat) (max_depth : Nat) : Nat :=
  index_at_depth (right_index p max_depth)

/-- Rust: `fn make_move(&self, is_attack: bool) -> Self { ((!is_attack as u128) | self) << 1 }` -/
def make_move (p : Nat) (is_attack : Bool) : Nat :=
  (((if is_attack then 0 else 1) ||| p) <<< 1) % U128_MOD

end Gindex

namespace ChessClock

/-- Rust: `fn duration(&self) -> u64 { (self >> 64) as u64 }` -/
def duration (c : Nat) : Nat := (c >>> 64) % U64_MOD

/-- Rust: `fn timestamp(&self) -> u64 { (self & u64::MAX as u128) as u64 }` -/
def timestamp (c : Nat) : Nat := (c &&& U64_MAX) % U64_MOD

end ChessClock

section NatLemmas

/-- Or-ing an even number with `1` sets the low bit. -/
theorem two_mul_lor_one (k : Nat) : (2 * k) ||| 1 = 2 * k + 1 := by
  have h := Nat.lor_bit false k true 0
  simpa [Nat.bit_false, Nat.bit_true] using h

/-- Or-ing an odd number with `1` is the identity. -/
theorem two_mul_add_one_lor_one (k : Nat) : (2 * k + 1) ||| 1 = 2 * k + 1 := by
  have h := Nat.lor_bit true k true 0
  simpa [Nat.bit_true] using h

/-- Evaluation of `p ||| 1` by parity. -/
theorem lor_one_eq (p : Nat) : p ||| 1 = if p % 2 = 0 then p + 1 else p := by
  rcases Nat.even_or_odd p with ⟨k, hk⟩ | ⟨k, hk⟩
  · subst hk
    have h2 : k + k = 2 * k := by omega
    rw [h2, two_mul_lor_one]
    simp [Nat.mul_mod_right]
  · subst hk
    simp [two_mul_add_one_lor_one, Nat.mul_add_mod]

end NatLemmas

namespace Gindex

/-- On the `u128` domain, `depthAux` computes `Nat.log2`. -/
theorem depthAux_eq_log2 (fuel : Nat) : ∀ p, p < 2 ^ fuel → depthAux fuel p = Nat.log2 p := by
  induction fuel with
  | zero =>
    intro p hp
    have hp0 : p = 0 := by simpa using hp
    subst hp0
    have hlog : Nat.log2 0 = 0 := by unfold Nat.log2; norm_num
    simp [depthAux, hlog]
  | succ fuel ih =>
    intro p hp
    by_cases h2 : p < 2
    · simp [depthAux, h2]
      unfold Nat.log2
      rw [if_neg (by omega)]
    · have hge : 2 ≤ p := by omega
      have hdiv : p / 2 < 2 ^ fuel := by
        rw [Nat.pow_succ] at hp
        omega
      simp [depthAux, h2, ih (p / 2) hdiv]
      conv_rhs => rw [Nat.log2]
      simp [hge]

/-- The function `depth` agrees with `Nat.log2` on the `u128` domain. -/
theorem depth_eq_log2 (p : Nat) (hp : p < 2 ^ 128) : depth p = Nat.log2 p :=
  depthAux_eq_log2 128 p hp

/-- Value of `depth` at a position written as `2^d + i` with `i < 2^d`, `d ≤ 127`. -/
theorem depth_pow_add (d i : Nat) (hd : d ≤ 127) (hi : i < 2 ^ d) :
    depth (2 ^ d + i) = d := by
  have hlt : 2 ^ d + i < 2 ^ (d + 1) := by
    have h2 : (2 : Nat) ^ (d + 1) = 2 ^ d + 2 ^ d := by rw [Nat.pow_succ]; omega
    omega
  have h128 : 2 ^ d + i < 2 ^ 128 :=
    Nat.lt_of_lt_of_le hlt (Nat.pow_le_pow_right (by norm_num) (by omega))
  rw [depth_eq_log2 _ h128, Nat.log2_eq_log_two]
  exact Nat.log_eq_of_pow_le_of_lt_pow (Nat.le_add_right _ _) hlt

/-- The function `index_at_depth` recovers `i` for small depths (no `u64` truncation). -/
theorem index_at_depth_pow_add (d i : Nat) (hd : d ≤ 64) (hi : i < 2 ^ d) :
    index_at_depth (2 ^ d + i) = i := by
  unfold index_at_depth
  rw [depth_pow_add d i (by omega) hi, Nat.add_sub_cancel_left]
  have h64 : (2 : Nat) ^ d ≤ 2 ^ 64 := Nat.pow_le_pow_right (by norm_num) hd
  have : i < U64_MOD := by
    unfold U64_MOD
    omega
  exact Nat.mod_eq_of_lt this

/-- The function `left` is plain doubling while the position stays below `2^127`. -/
theorem left_eq_of_lt (p : Nat) (hp : p < 2 ^ 127) : left p = 2 * p := by
  unfold left
  have h1 : p <<< 1 = p * 2 := by rw [Nat.shiftLeft_eq, Nat.pow_one]
  have h2 : p * 2 < U128_MOD := by
    unfold U128_MOD
    have h3 : (2 : Nat) ^ 128 = 2 ^ 127 * 2 := by rw [Nat.pow_succ]
    omega
  rw [h1, Nat.mod_eq_of_lt h2, Nat.mul_comm]

/-- The function `right` is `2p + 1` while the position stays below `2^127`. -/
theorem right_eq_of_lt (p : Nat) (hp : p < 2 ^ 127) : right p = 2 * p + 1 := by
  unfold right
  rw [left_eq_of_lt p hp, two_mul_lor_one]

/-- The function `parent` is division by two. -/
theorem parent_eq (p : Nat) : parent p = p / 2 := by
  unfold parent
  rw [Nat.shiftRight_eq_div_pow, Nat.pow_one]

end Gindex

open Gindex in
/-- C8 (position algebra). For every depth `d ≤ 63`, every `i < 2^d` and every
max depth `D` with `d ≤ D ≤ 127` (so that none of the involved shifts panics),
the position `p = 2^d + i` satisfies `depth p = d`, `index_at_depth p = i`,
`left p ||| 1 = right p`, `parent (left p) = parent (right p) = p`,
`right_index p D = (p <<< (D - d)) ||| ((1 <<< (D - d)) - 1)`, and
`trace_index p D = index_at_depth (right_index p D)`. -/
theorem position_algebra (d i D : Nat) (hd : d ≤ 63) (hi : i < 2 ^ d)
    (hdD : d ≤ D) (hD : D ≤ 127) :
    depth (2 ^ d + i) = d ∧
    index_at_depth (2 ^ d + i) = i ∧
    left (2 ^ d + i) ||| 1 = right (2 ^ d + i) ∧
    parent (left (2 ^ d + i)) = 2 ^ d + i ∧
    parent (right (2 ^ d + i)) = 2 ^ d + i ∧
    right_index (2 ^ d + i) D =
      ((2 ^ d + i) <<< (D - d)) ||| ((1 <<< (D - d)) - 1) ∧
    trace_index (2 ^ d + i) D = index_at_depth (right_index (2 ^ d + i) D) := by
  have hplt : 2 ^ d + i < 2 ^ (d + 1) := by
    have h2 : (2 : Nat) ^ (d + 1) = 2 ^ d + 2 ^ d := by rw [Nat.pow_succ]; omega
    omega
  have hp127 : 2 ^ d + i < 2 ^ 127 :=
    Nat.lt_of_lt_of_le hplt (Nat.pow_le_pow_right (by norm_num) (by omega))
  refine ⟨depth_pow_add d i (by omega) hi, index_at_depth_pow_add d i (by omega) hi, rfl,
    ?_, ?_, ?_, rfl⟩
  · rw [left_eq_of_lt _ hp127, parent_eq]
    omega
  · rw [right_eq_of_lt _ hp127, parent_eq]
    omega
  · unfold right_index
    rw [depth_pow_add d i (by omega) hi]
    have hshift : (2 ^ d + i) <<< (D - d) = (2 ^ d + i) * 2 ^ (D - d) :=
      Nat.shiftLeft_eq _ _
    have hone : (1 : Nat) <<< (D - d) = 2 ^ (D - d) := by
      rw [Nat.shiftLeft_eq, Nat.one_mul]
    have hlt1 : (2 ^ d + i) * 2 ^ (D - d) < U128_MOD := by
      unfold U128_MOD
      calc (2 ^ d + i) * 2 ^ (D - d) < 2 ^ (d + 1) * 2 ^ (D - d) :=
            (Nat.mul_lt_mul_right (Nat.two_pow_pos _)).mpr hplt
      _ = 2 ^ (d + 1 + (D - d)) := (Nat.pow_add 2 (d + 1) (D - d)).symm
      _ ≤ 2 ^ 128 := Nat.pow_le_pow_right (by norm_num) (by omega)
    have hlt2 : (2 : Nat) ^ (D - d) < U128_MOD := by
      unfold U128_MOD
      exact Nat.pow_lt_pow_right (by norm_num) (by omega)
    rw [hshift, hone, Nat.mod_eq_of_lt hlt1, Nat.mod_eq_of_lt hlt2]

open Gindex in
/-- Witness for C8 at `d = 3`, `i = 5`, `D = 4`. -/
theorem position_algebra_witness :
    (3 ≤ 63 ∧ 5 < 2 ^ 3 ∧ 3 ≤ 4 ∧ 4 ≤ 127) ∧
    (depth (2 ^ 3 + 5) = 3 ∧
     index_at_depth (2 ^ 3 + 5) = 5 ∧
     left (2 ^ 3 + 5) ||| 1 = right (2 ^ 3 + 5) ∧
     parent (left (2 ^ 3 + 5)) = 2 ^ 3 + 5 ∧
     parent (right (2 ^ 3 + 5)) = 2 ^ 3 + 5 ∧
     right_index (2 ^ 3 + 5) 4 =
       ((2 ^ 3 + 5) <<< (4 - 3)) ||| ((1 <<< (4 - 3)) - 1) ∧
     trace_index (2 ^ 3 + 5) 4 = index_at_depth (right_index (2 ^ 3 + 5) 4)) :=
  ⟨by norm_num,
   position_algebra 3 5 4 (by norm_num) (by norm_num) (by norm_num) (by norm_num)⟩

namespace Gindex

/-- An attack `make_move p true` is doubling (mod `2^128`). -/
theorem make_move_true_eq (p : Nat) : make_move p true = (2 * p) % U128_MOD := by
  unfold make_move
  rw [if_pos rfl, Nat.zero_or, Nat.shiftLeft_eq, Nat.pow_one, Nat.mul_comm]

/-- A defend `make_move p false` is `(p ||| 1) * 2` (mod `2^128`). -/
theorem make_move_false_eq (p : Nat) : make_move p false = ((p ||| 1) * 2) % U128_MOD := by
  unfold make_move
  rw [if_neg (by simp), Nat.lor_comm, Nat.shiftLeft_eq, Nat.pow_one]

/-- An attack move is the left child. -/
theorem make_move_true_eq_left (p : Nat) : make_move p true = left p := by
  rw [make_move_true_eq]
  unfold left
  rw [Nat.shiftLeft_eq, Nat.pow_one, Nat.mul_comm]

/-- Splitting `2^(d+1)` for `omega`. -/
theorem two_pow_succ (d : Nat) : (2 : Nat) ^ (d + 1) = 2 ^ d + 2 ^ d := by
  rw [Nat.pow_succ]
  omega

/-- An attack from `2^d + j` lands on `2^(d+1) + 2j` (no wrap for `d ≤ 126`). -/
theorem make_move_attack_pow (d j : Nat) (hd : d ≤ 126) (hj : j < 2 ^ d) :
    make_move (2 ^ d + j) true = 2 ^ (d + 1) + 2 * j := by
  rw [make_move_true_eq]
  have he : 2 * (2 ^ d + j) = 2 ^ (d + 1) + 2 * j := by
    rw [two_pow_succ]
    ring
  rw [he, Nat.mod_eq_of_lt]
  unfold U128_MOD
  have h1 : (2 : Nat) ^ (d + 1) ≤ 2 ^ 127 := Nat.pow_le_pow_right (by norm_num) (by omega)
  have h2 : (2 : Nat) ^ 128 = 2 ^ 127 + 2 ^ 127 := two_pow_succ 127
  have h3 : 2 * j < 2 ^ (d + 1) := by rw [two_pow_succ]; omega
  omega

/-- A defend from `2^d + j` lands on `2^(d+1) + (2j + 2)` for even `j`, on
`2^(d+1) + 2j` for odd `j` (`1 ≤ d ≤ 126`, so the position parity is the
parity of `j` and nothing wraps). -/
theorem make_move_defend_pow (d j : Nat) (hd1 : 1 ≤ d) (hd : d ≤ 126) (hj : j < 2 ^ d) :
    make_move (2 ^ d + j) false =
      2 ^ (d + 1) + (if j % 2 = 0 then 2 * j + 2 else 2 * j) := by
  have hpow2 : (2 : Nat) ^ d % 2 = 0 := by
    rcases Nat.exists_eq_add_of_le hd1 with ⟨e, he⟩
    subst he
    rw [Nat.pow_add, Nat.pow_one]
    omega
  have hpar : (2 ^ d + j) % 2 = j % 2 := by omega
  have h128 : (2 : Nat) ^ (d + 2) ≤ 2 ^ 128 :=
    Nat.pow_le_pow_right (by norm_num) (by omega)
  have h4 := two_pow_succ (d + 1)
  have h2 := two_pow_succ d
  rw [make_move_false_eq, lor_one_eq, hpar]
  rcases Nat.mod_two_eq_zero_or_one j with hj2 | hj2
  · rw [if_pos hj2, if_pos hj2]
    have he : (2 ^ d + j + 1) * 2 = 2 ^ (d + 1) + (2 * j + 2) := by
      rw [two_pow_succ]
      ring
    have hj3 : 2 * j + 2 < 2 ^ (d + 1) := by
      rw [two_pow_succ]
      omega
    have hlt : 2 ^ (d + 1) + (2 * j + 2) < U128_MOD := by
      unfold U128_MOD
      calc 2 ^ (d + 1) + (2 * j + 2) < 2 ^ (d + 1) + 2 ^ (d + 1) :=
            Nat.add_lt_add_left hj3 _
      _ = 2 ^ (d + 2) := (two_pow_succ (d + 1)).symm
      _ ≤ 2 ^ 128 := h128
    rw [he, Nat.mod_eq_of_lt hlt]
  · rw [if_neg (by omega), if_neg (by omega)]
    have he : (2 ^ d + j) * 2 = 2 ^ (d + 1) + 2 * j := by
      rw [two_pow_succ]
      ring
    have hj3 : 2 * j < 2 ^ (d + 1) := by
      rw [two_pow_succ]
      omega
    have hlt : 2 ^ (d + 1) + 2 * j < U128_MOD := by
      unfold U128_MOD
      calc 2 ^ (d + 1) + 2 * j < 2 ^ (d + 1) + 2 ^ (d + 1) :=
            Nat.add_lt_add_left hj3 _
      _ = 2 ^ (d + 2) := (two_pow_succ (d + 1)).symm
      _ ≤ 2 ^ 128 := h128
    rw [he, Nat.mod_eq_of_lt hlt]

end Gindex

/-- C1, counterexample: The claim states `make_move(p, false) = 2p + 1` for every
non-root `p`; at `p = 2` the code computes `make_move(2, false) = (1 ||| 2) <<< 1 = 6`,
not `2 * 2 + 1 = 5`. -/
theorem make_move_defend_cex : Gindex.make_move 2 false = 6 ∧ (6 : Nat) ≠ 2 * 2 + 1 := by
  constructor
  · decide
  · decide

open Gindex in
/-- C1 (amended). For every non-root position `p` (`depth p ≥ 1`):
`make_move p true = 2p (mod 2^128)` and `make_move p false = ((p ||| 1) * 2) (mod 2^128)`,
which is `2p + 2` for even `p` and `2p` for odd `p` — not `2p + 1`. -/
theorem make_move_duality (p : Nat) (hp : 1 ≤ depth p) :
    make_move p true = (2 * p) % U128_MOD ∧
    make_move p false = ((p ||| 1) * 2) % U128_MOD ∧
    (p % 2 = 0 → make_move p false = (2 * p + 2) % U128_MOD) ∧
    (p % 2 = 1 → make_move p false = (2 * p) % U128_MOD) := by
  refine ⟨make_move_true_eq p, make_move_false_eq p, ?_, ?_⟩
  · intro hpar
    rw [make_move_false_eq, lor_one_eq, if_pos hpar]
    congr 1
    ring
  · intro hpar
    rw [make_move_false_eq, lor_one_eq, if_neg (by omega)]
    congr 1
    ring

/-- Witness for C1 (amended) at `p = 2`. -/
theorem make_move_duality_witness :
    1 ≤ Gindex.depth 2 ∧
    Gindex.make_move 2 true = (2 * 2) % U128_MOD ∧
    Gindex.make_move 2 false = ((2 ||| 1) * 2) % U128_MOD ∧
    ((2 : Nat) % 2 = 0 → Gindex.make_move 2 false = (2 * 2 + 2) % U128_MOD) ∧
    ((2 : Nat) % 2 = 1 → Gindex.make_move 2 false = (2 * 2) % U128_MOD) :=
  ⟨by decide, make_move_duality 2 (by decide)⟩

/-! ## Game data model (`state.rs`, `durin_primitives`) -/

/-- Rust: `durin_primitives::GameStatus`. -/
inductive GameStatus where
  | InProgress
  | ChallengerWins
  | DefenderWins
deriving DecidableEq, Repr

/-- Rust: `ClaimData` (state.rs): one node of the game DAG.
`parent_index` is a `u32` (`U32_MAX` marks the root), `value` a 32-byte
commitment, `position` a `u128` generalized index, `clock` a `u128` packed
chess clock. -/
structure ClaimData where
  parent_index : Nat
  countered : Bool
  value : Nat
  position : Nat
  clock : Nat
  visited : Bool
deriving DecidableEq, Repr

/-- Rust: `FaultDisputeState` (state.rs): claim vector, root claim, status and the
depth parameters. The alpha-era `state.rs` stores only `max_depth`; the chad
solver's world additionally carries `split_depth` (ignored by the alpha
solver). -/
structure FaultDisputeState where
  state : List ClaimData
  root_claim : Nat
  status : GameStatus
  split_depth : Nat
  max_depth : Nat
deriving DecidableEq, Repr

/-- Rust: `FaultSolverResponse` (types.rs): `Move(is_attack, claim_index, claim)`,
`Skip(claim_index)`, `Step(is_attack, claim_index, prestate, proof)`.
Pre-state bytes are opaque (`Nat`), proofs are byte lists (the absolute
prestate is stepped with the empty proof `Arc::new([])` = `[]`). -/
inductive FaultSolverResponse where
  | Move : Bool → Nat → Nat → FaultSolverResponse
  | Skip : Nat → FaultSolverResponse
  | Step : Bool → Nat → Nat → List Nat → FaultSolverResponse
deriving DecidableEq, Repr

/-! ## Trace providers (`traits.rs`)

A provider call that fails (`OracleError`) is embedded as `none`. -/

/-- The alpha-era `TraceProvider<T>`: `absolute_prestate()` takes no
position argument. -/
structure TraceProvider where
  absolute_prestate : Option Nat
  state_at : Nat → Option Nat
  state_hash : Nat → Option Nat
  proof_at : Nat → Option (List Nat)

/-- The chad-era `TraceProvider` (as consumed through `SplitTraceProvider`):
`absolute_prestate(position)` takes the position of the move. -/
structure ChadTraceProvider where
  absolute_prestate : Nat → Option Nat
  state_at : Nat → Option Nat
  state_hash : Nat → Option Nat
  proof_at : Nat → Option (List Nat)

/-! ## Alpha claim solver (`solvers/alpha.rs`) -/

/-- Rust: `AlphaClaimSolver::fetch_state_hash`: on provider failure the observed
claim's `visited` flag is reset to `false` and the error is propagated. -/
def fetchStateHash (P : TraceProvider) (position : Nat) (observed_claim : ClaimData) :
    Except Unit Nat × ClaimData :=
  match P.state_hash position with
  | none => (.error (), { observed_claim with visited := false })
  | some h => (.ok h, observed_claim)

/-- Rust: `AlphaClaimSolver::fetch_state_at` (same rollback discipline). -/
def fetchStateAt (P : TraceProvider) (position : Nat) (observed_claim : ClaimData) :
    Except Unit Nat × ClaimData :=
  match P.state_at position with
  | none => (.error (), { observed_claim with visited := false })
  | some s => (.ok s, observed_claim)

/-- Rust: `AlphaClaimSolver::fetch_proof_at` (same rollback discipline). -/
def fetchProofAt (P : TraceProvider) (position : Nat) (observed_claim : ClaimData) :
    Except Unit (List Nat) × ClaimData :=
  match P.proof_at position with
  | none => (.error (), { observed_claim with visited := false })
  | some pf => (.ok pf, observed_claim)

/-- Rust: `AlphaClaimSolver::solve_claim` (solvers/alpha.rs), acting on the observed
claim record: returns the response (`.error ()` standing for the propagated
`anyhow` error) together with the final state of the observed record. The
`visited := true` stamp happens up front, exactly as in the source; each
`fetch*` helper may reset it. The world-level `alphaSolveClaim` re-inserts
the record into the claim vector. -/
def alphaSolveClaimCore (P : TraceProvider) (max_depth : Nat) (claim0 : ClaimData)
    (claim_index : Nat) (attacking_root : Bool) :
    Except Unit FaultSolverResponse × ClaimData :=
  let claim_depth := Gindex.depth claim0.position
  let claim := { claim0 with visited := true }
  if claim_depth % 2 = (if attacking_root then 1 else 0) then
    (.ok (.Skip claim_index), claim)
  else if claim.parent_index = U32_MAX ∧ attacking_root = true then
    match fetchStateHash P (Gindex.make_move claim.position true) claim with
    | (.error e, claim) => (.error e, claim)
    | (.ok claim_hash, claim) => (.ok (.Move true claim_index claim_hash), claim)
  else
    match fetchStateHash P claim.position claim with
    | (.error e, claim) => (.error e, claim)
    | (.ok self_state_hash, claim) =>
      let is_attack : Bool := self_state_hash != claim.value
      if claim_depth = max_depth then
        if Gindex.index_at_depth claim.position = 0 ∧ is_attack = true then
          match P.absolute_prestate with
          | none => (.error (), claim)
          | some pre_state => (.ok (.Step is_attack claim_index pre_state []), claim)
        else
          let pre_state_pos := claim.position - (if is_attack then 1 else 0)
          match fetchStateAt P pre_state_pos claim with
          | (.error e, claim) => (.error e, claim)
          | (.ok pre_state, claim) =>
            match fetchProofAt P pre_state_pos claim with
            | (.error e, claim) => (.error e, claim)
            | (.ok proof, claim) =>
              (.ok (.Step is_attack claim_index pre_state proof), claim)
      else
        match fetchStateHash P (Gindex.make_move claim.position is_attack) claim with
        | (.error e, claim) => (.error e, claim)
        | (.ok claim_hash, claim) => (.ok (.Move is_attack claim_index claim_hash), claim)

/-- The world-level entry point of `AlphaClaimSolver::solve_claim`: fetch the
claim record (`Failed to fetch claim from passed state` on a bad index), run
the solver on it, and write the record back. -/
def alphaSolveClaim (P : TraceProvider) (world : FaultDisputeState)
    (claim_index : Nat) (attacking_root : Bool) :
    Except Unit FaultSolverResponse × FaultDisputeState :=
  match world.state[claim_index]? with
  | none => (.error (), world)
  | some claim =>
    let res := alphaSolveClaimCore P world.max_depth claim claim_index attacking_root
    (res.1, { world with state := world.state.set claim_index res.2 })

/-! ## Chad claim solver (`solvers/alpha_chad.rs`) -/

/-- Rust: `ChadClaimSolver::fetch_state_hash` (same rollback discipline). -/
def chadFetchStateHash (P : ChadTraceProvider) (position : Nat)
    (observed_claim : ClaimData) : Except Unit Nat × ClaimData :=
  match P.state_hash position with
  | none => (.error (), { observed_claim with visited := false })
  | some h => (.ok h, observed_claim)

/-- Rust: `ChadClaimSolver::fetch_state_at` (same rollback discipline). -/
def chadFetchStateAt (P : ChadTraceProvider) (position : Nat)
    (observed_claim : ClaimData) : Except Unit Nat × ClaimData :=
  match P.state_at position with
  | none => (.error (), { observed_claim with visited := false })
  | some s => (.ok s, observed_claim)

/-- Rust: `ChadClaimSolver::fetch_proof_at` (same rollback discipline). -/
def chadFetchProofAt (P : ChadTraceProvider) (position : Nat)
    (observed_claim : ClaimData) : Except Unit (List Nat) × ClaimData :=
  match P.proof_at position with
  | none => (.error (), { observed_claim with visited := false })
  | some pf => (.ok pf, observed_claim)

/-- Rust: `ChadClaimSolver::fetch_absolute_prestate` (same rollback discipline). -/
def chadFetchAbsolutePrestate (P : ChadTraceProvider) (position : Nat)
    (observed_claim : ClaimData) : Except Unit Nat × ClaimData :=
  match P.absolute_prestate position with
  | none => (.error (), { observed_claim with visited := false })
  | some s => (.ok s, observed_claim)

/-- Rust: `ChadClaimSolver::solve_claim` (solvers/alpha_chad.rs), acting on the
observed claim record. -/
def chadSolveClaimCore (P : ChadTraceProvider) (split_depth max_depth : Nat)
    (claim0 : ClaimData) (claim_index : Nat) (attacking_root : Bool) :
    Except Unit FaultSolverResponse × ClaimData :=
  let claim_depth := Gindex.depth claim0.position
  let claim := { claim0 with visited := true }
  match chadFetchStateHash P claim.position claim with
  | (.error e, claim) => (.error e, claim)
  | (.ok local_claim, claim) =>
    let local_agree : Bool := local_claim == claim.value
    let right_level : Bool := attacking_root != decide (claim_depth % 2 = 0)
    if claim.parent_index = U32_MAX then
      if local_agree && right_level then (.ok (.Skip claim_index), claim)
      else
        match chadFetchStateHash P (Gindex.make_move claim.position true) claim with
        | (.error e, claim) => (.error e, claim)
        | (.ok claimed_hash, claim) =>
          (.ok (.Move true claim_index claimed_hash), claim)
    else
      if claim_depth = split_depth + 1 ∧ local_agree = true then
        (.ok (.Skip claim_index), claim)
      else if right_level then (.ok (.Skip claim_index), claim)
      else
        let move_pos := Gindex.make_move claim.position (!local_agree)
        if Gindex.depth move_pos ≤ max_depth then
          match chadFetchStateHash P move_pos claim with
          | (.error e, claim) => (.error e, claim)
          | (.ok move_claim, claim) =>
            (.ok (.Move (!local_agree) claim_index move_claim), claim)
        else
          let fetched :=
            if Gindex.index_at_depth move_pos % 2 ^ (max_depth - split_depth) ≠ 0 then
              if local_agree then chadFetchStateAt P claim.position claim
              else chadFetchStateAt P (claim.position - 1) claim
            else chadFetchAbsolutePrestate P move_pos claim
          match fetched with
          | (.error e, claim) => (.error e, claim)
          | (.ok prestate, claim) =>
            match chadFetchProofAt P move_pos claim with
            | (.error e, claim) => (.error e, claim)
            | (.ok proof, claim) =>
              (.ok (.Step (!local_agree) claim_index prestate proof), claim)

/-- The world-level entry point of `ChadClaimSolver::solve_claim`. -/
def chadSolveClaim (P : ChadTraceProvider) (world : FaultDisputeState)
    (claim_index : Nat) (attacking_root : Bool) :
    Except Unit FaultSolverResponse × FaultDisputeState :=
  match world.state[claim_index]? with
  | none => (.error (), world)
  | some claim =>
    let res := chadSolveClaimCore P world.split_depth world.max_depth claim
      claim_index attacking_root
    (res.1, { world with state := world.state.set claim_index res.2 })

/-! ## Solver-level claims -/

/-- Is the response a `Move` or a `Step` (as opposed to `Skip`)? -/
def isMoveOrStep : FaultSolverResponse → Bool
  | .Skip _ => false
  | .Move _ _ _ => true
  | .Step _ _ _ _ => true

/-- A concrete, always-successful alpha provider: the state hash at `p` is `p`. -/
def idProvider : TraceProvider where
  absolute_prestate := some 100
  state_at := fun p => some (1000 + p)
  state_hash := fun p => some p
  proof_at := fun p => some [p]

/-- A concrete, always-successful chad provider: the state hash at `p` is `p`. -/
def idChadProvider : ChadTraceProvider where
  absolute_prestate := fun p => some (100 + p)
  state_at := fun p => some (1000 + p)
  state_hash := fun p => some p
  proof_at := fun p => some [p]

/-- A root claim record (position 1) whose value `999` disputes `idProvider`
(`state_hash 1 = some 1 ≠ 999`). -/
def rootClaimWrong : ClaimData where
  parent_index := U32_MAX
  countered := false
  value := 999
  position := 1
  clock := 0
  visited := false

/-- A non-root claim record at position 4 (depth 2) whose value `999` disputes
the providers. -/
def claim4Wrong : ClaimData where
  parent_index := 1
  countered := false
  value := 999
  position := 4
  clock := 0
  visited := false

/-- C2, counterexample: With `attacking_root = true` the alpha solver emits
`Move(true, 0, state_hash(2))` against the root claim, whose depth parity is
`0`, not `1` as the claim demands. -/
theorem solver_parity_cex :
    (alphaSolveClaimCore idProvider 4 rootClaimWrong 0 true).1 = .ok (.Move true 0 2) ∧
    isMoveOrStep (.Move true 0 2) = true ∧
    Gindex.depth rootClaimWrong.position % 2 = 0 ∧
    Gindex.depth rootClaimWrong.position % 2 ≠ 1 := by
  refine ⟨rfl, rfl, rfl, by decide⟩

/-- C2 (amended). Every `Move` or `Step` emitted by `solve_claim` is for a
claim with `depth % 2 = attacking_root ? 0 : 1` (the opposite parity of what
the original claim states). This holds unconditionally for the alpha solver;
for the chad solver it additionally requires that a root claim sitting on the
honest side's parity agrees with the provider (which holds whenever
`attacking_root` is derived from the snapshot's root claim, as
`available_moves` does). -/
theorem solver_parity (P : TraceProvider) (Q : ChadTraceProvider) (S D : Nat)
    (c : ClaimData) (i : Nat) (ar : Bool) (r : FaultSolverResponse) :
    ((alphaSolveClaimCore P D c i ar).1 = .ok r → isMoveOrStep r = true →
      Gindex.depth c.position % 2 = (if ar then 0 else 1)) ∧
    ((c.parent_index = U32_MAX →
        (ar != decide (Gindex.depth c.position % 2 = 0)) = true →
        Q.state_hash c.position = some c.value) →
      (chadSolveClaimCore Q S D c i ar).1 = .ok r → isMoveOrStep r = true →
      Gindex.depth c.position % 2 = (if ar then 0 else 1)) := by
  have hpar01 : Gindex.depth c.position % 2 = 0 ∨ Gindex.depth c.position % 2 = 1 :=
    Nat.mod_two_eq_zero_or_one _
  constructor
  · intro hok hms
    by_cases hskip : Gindex.depth c.position % 2 = (if ar then 1 else 0)
    · simp only [alphaSolveClaimCore, if_pos hskip] at hok
      have hr : r = .Skip i := by
        cases hok
        rfl
      rw [hr] at hms
      simp [isMoveOrStep] at hms
    · cases ar with
      | true =>
        have h1 : ¬ Gindex.depth c.position % 2 = 1 := hskip
        show Gindex.depth c.position % 2 = 0
        omega
      | false =>
        have h1 : ¬ Gindex.depth c.position % 2 = 0 := hskip
        show Gindex.depth c.position % 2 = 1
        omega
  · intro hroot hok hms
    by_cases hrl : (ar != decide (Gindex.depth c.position % 2 = 0)) = true
    · -- the claim sits on the honest parity: only a root claim could emit here,
      -- and the consistency hypothesis forces it to be skipped
      exfalso
      cases hsh : Q.state_hash c.position with
      | none =>
        simp only [chadSolveClaimCore, chadFetchStateHash, hsh] at hok
        cases hok
      | some h =>
        simp only [chadSolveClaimCore, chadFetchStateHash, hsh] at hok
        by_cases hr : c.parent_index = U32_MAX
        · have hv := hroot hr hrl
          rw [hsh] at hv
          injection hv with hv
          subst hv
          have hcond : (c.value == c.value &&
              (ar != decide (Gindex.depth c.position % 2 = 0))) = true := by
            rw [beq_self_eq_true, Bool.true_and]
            exact hrl
          rw [if_pos hr, if_pos hcond] at hok
          have hok2 : Except.ok (FaultSolverResponse.Skip i) = Except.ok r := hok
          injection hok2 with hok3
          rw [← hok3] at hms
          simp [isMoveOrStep] at hms
        · rw [if_neg hr] at hok
          by_cases hg : Gindex.depth c.position = S + 1 ∧ (h == c.value) = true
          · rw [if_pos hg] at hok
            have hok2 : Except.ok (FaultSolverResponse.Skip i) = Except.ok r := hok
            injection hok2 with hok3
            rw [← hok3] at hms
            simp [isMoveOrStep] at hms
          · rw [if_neg hg, if_pos hrl] at hok
            have hok2 : Except.ok (FaultSolverResponse.Skip i) = Except.ok r := hok
            injection hok2 with hok3
            rw [← hok3] at hms
            simp [isMoveOrStep] at hms
    · -- right_level = false pins the parity
      have hrl2 : ar = decide (Gindex.depth c.position % 2 = 0) := by
        simpa using hrl
      cases ar with
      | true =>
        have hd : decide (Gindex.depth c.position % 2 = 0) = true := hrl2.symm
        show Gindex.depth c.position % 2 = 0
        exact of_decide_eq_true hd
      | false =>
        have hd : decide (Gindex.depth c.position % 2 = 0) = false := hrl2.symm
        have h0 := of_decide_eq_false hd
        show Gindex.depth c.position % 2 = 1
        omega

/-- C3, counterexample: With `attacking_root = false` (the value
`available_moves` computes when the provider agrees with the game's root-claim
field) the alpha solver skips a root claim record whose value it disputes
(`state_hash 1 = some 1 ≠ 999`); the claim demands `Move(true, 0, state_hash 2)`
whenever local agreement fails. -/
theorem root_claim_cex :
    idProvider.state_hash rootClaimWrong.position = some 1 ∧
    rootClaimWrong.value = 999 ∧ (1 : Nat) ≠ 999 ∧
    (alphaSolveClaimCore idProvider 4 rootClaimWrong 0 false).1 = .ok (.Skip 0) :=
  ⟨rfl, rfl, by decide, rfl⟩

/-- C3 (amended). For a root claim (`parent_index = u32::MAX`):
the chad solver behaves exactly as the claim states — `Skip` iff the provider
agrees with the claim's value *and* the root sits on the honest side's parity,
otherwise `Move(true, i, state_hash(left p))` — and never emits a defending
`Move`. The alpha solver consults only the parity: at the root position `1` it
skips iff `attacking_root = false` (local agreement is not consulted) and
attacks iff `attacking_root = true`; it also never defends the root. The
original dichotomy therefore holds for the alpha solver exactly when local
agreement coincides with `¬attacking_root`. -/
theorem root_claim_handling (P : TraceProvider) (Q : ChadTraceProvider)
    (S D : Nat) (c : ClaimData) (i : Nat) (ar : Bool)
    (hroot : c.parent_index = U32_MAX) :
    (∀ h, Q.state_hash c.position = some h →
      ((h = c.value ∧ (ar != decide (Gindex.depth c.position % 2 = 0)) = true) →
        (chadSolveClaimCore Q S D c i ar).1 = .ok (.Skip i)) ∧
      (¬(h = c.value ∧ (ar != decide (Gindex.depth c.position % 2 = 0)) = true) →
        ∀ h2, Q.state_hash (Gindex.left c.position) = some h2 →
          (chadSolveClaimCore Q S D c i ar).1 = .ok (.Move true i h2)) ∧
      (∀ b j hm, (chadSolveClaimCore Q S D c i ar).1 = .ok (.Move b j hm) →
        b = true)) ∧
    (c.position = 1 →
      (ar = false → (alphaSolveClaimCore P D c i ar).1 = .ok (.Skip i)) ∧
      (ar = true → ∀ h2, P.state_hash 2 = some h2 →
        (alphaSolveClaimCore P D c i ar).1 = .ok (.Move true i h2)) ∧
      (∀ b j hm, (alphaSolveClaimCore P D c i ar).1 = .ok (.Move b j hm) →
        b = true)) := by
  constructor
  · intro h hsh
    refine ⟨?_, ?_, ?_⟩
    · rintro ⟨hv, hrl⟩
      have hcond : (h == c.value &&
          (ar != decide (Gindex.depth c.position % 2 = 0))) = true := by
        rw [hv, beq_self_eq_true, Bool.true_and]
        exact hrl
      simp only [chadSolveClaimCore, chadFetchStateHash, hsh, if_pos hroot,
        if_pos hcond]
    · intro hnot h2 hsh2
      have hncond : ¬((h == c.value &&
          (ar != decide (Gindex.depth c.position % 2 = 0))) = true) := by
        intro hc
        rw [Bool.and_eq_true] at hc
        exact hnot ⟨eq_of_beq hc.1, hc.2⟩
      have hsh2' : Q.state_hash (Gindex.make_move c.position true) = some h2 := by
        rw [Gindex.make_move_true_eq_left]
        exact hsh2
      simp only [chadSolveClaimCore, chadFetchStateHash, hsh, if_pos hroot,
        if_neg hncond, hsh2']
    · intro b j hm hok
      by_cases hcond : (h == c.value &&
          (ar != decide (Gindex.depth c.position % 2 = 0))) = true
      · simp only [chadSolveClaimCore, chadFetchStateHash, hsh, if_pos hroot,
          if_pos hcond] at hok
        cases hok
      · cases hsh3 : Q.state_hash (Gindex.make_move c.position true) with
        | none =>
          simp only [chadSolveClaimCore, chadFetchStateHash, hsh, if_pos hroot,
            if_neg hcond, hsh3] at hok
          cases hok
        | some h3 =>
          simp only [chadSolveClaimCore, chadFetchStateHash, hsh, if_pos hroot,
            if_neg hcond, hsh3] at hok
          have hok2 : Except.ok (FaultSolverResponse.Move true i h3) =
              Except.ok (FaultSolverResponse.Move b j hm) := hok
          injection hok2 with hok3
          injection hok3 with hb hj hh
          exact hb.symm
  · intro hpos
    obtain ⟨pi, co, v, pos, cl, vis⟩ := c
    simp only at hroot hpos
    subst hroot
    subst hpos
    refine ⟨?_, ?_, ?_⟩
    · intro har
      subst har
      rfl
    · intro har h2 hsh2
      subst har
      simp only [alphaSolveClaimCore, fetchStateHash,
        (by decide : Gindex.make_move 1 true = 2), hsh2]
      rfl
    · intro b j hm hok
      cases ar with
      | false =>
        have hok2 : Except.ok (FaultSolverResponse.Skip i) =
            Except.ok (FaultSolverResponse.Move b j hm) := hok
        cases hok2
      | true =>
        cases hsh3 : P.state_hash 2 with
        | none =>
          simp only [alphaSolveClaimCore, fetchStateHash,
            (by decide : Gindex.make_move 1 true = 2), hsh3] at hok
          cases hok
        | some h3 =>
          simp only [alphaSolveClaimCore, fetchStateHash,
            (by decide : Gindex.make_move 1 true = 2), hsh3] at hok
          have hok2 : Except.ok (FaultSolverResponse.Move true i h3) =
              Except.ok (FaultSolverResponse.Move b j hm) := hok
          injection hok2 with hok3
          injection hok3 with hb hj hh
          exact hb.symm

/-- Witness for C3 (amended): the chad solver attacks the disputed root claim
with the state hash of the left child (`state_hash 2 = some 2`). -/
theorem root_claim_handling_witness :
    (chadSolveClaimCore idChadProvider 2 4 rootClaimWrong 0 true).1 =
      .ok (.Move true 0 2) :=
  (((root_claim_handling idProvider idChadProvider 2 4 rootClaimWrong 0 true
      rfl).1 1 rfl).2.1 (by decide) 2 rfl)

/-- Witness for C2 (amended): the chad solver's move against the wrong claim at
position 4 (depth 2) with `attacking_root = true` lands on parity 0. -/
theorem solver_parity_witness :
    Gindex.depth claim4Wrong.position % 2 = (if true then 0 else 1) :=
  (solver_parity idProvider idChadProvider 2 4 claim4Wrong 2 true
      (.Move true 2 8)).2
    (fun h _ => absurd h (by decide)) rfl rfl

/-- A wrong claim at leaf position 16 (depth 4, `index_at_depth = 0`). -/
def claim16Wrong : ClaimData where
  parent_index := 3
  countered := false
  value := 999
  position := 16
  clock := 0
  visited := false

open Gindex in
/-- C4 (alpha step case). For a non-skipped, non-root claim at the maximum
depth, `solve_claim` returns `Step(is_attack, i, prestate, proof)` with
`is_attack = (state_hash(position) != value)`; the prestate is the absolute
prestate with the empty proof exactly when `index_at_depth(position) = 0` and
the step attacks, and otherwise it is `state_at(position - is_attack)` with
proof `proof_at(position - is_attack)`. -/
theorem alpha_step_case (P : TraceProvider) (D : Nat) (c : ClaimData) (i : Nat)
    (ar : Bool) (h pa ps : Nat) (pf : List Nat)
    (hskip : ¬ (depth c.position % 2 = (if ar then 1 else 0)))
    (hnroot : ¬ (c.parent_index = U32_MAX ∧ ar = true))
    (hdep : depth c.position = D)
    (hsh : P.state_hash c.position = some h)
    (habs : P.absolute_prestate = some pa)
    (hst : P.state_at (c.position - (if (h != c.value) = true then 1 else 0)) =
      some ps)
    (hpf : P.proof_at (c.position - (if (h != c.value) = true then 1 else 0)) =
      some pf) :
    (alphaSolveClaimCore P D c i ar).1 =
      .ok (.Step (h != c.value) i
        (if index_at_depth c.position = 0 ∧ (h != c.value) = true then pa else ps)
        (if index_at_depth c.position = 0 ∧ (h != c.value) = true then [] else pf)) := by
  by_cases hcase : index_at_depth c.position = 0 ∧ (h != c.value) = true
  · simp only [alphaSolveClaimCore, fetchStateHash, hsh, if_neg hskip,
      if_neg hnroot, if_pos hdep, if_pos hcase, habs]
  · simp only [alphaSolveClaimCore, fetchStateHash, fetchStateAt, fetchProofAt,
      hsh, if_neg hskip, if_neg hnroot, if_pos hdep, if_neg hcase, hst, hpf]

/-- Witness for C4: stepping the first (wrong) leaf at position 16 attacks it
with the absolute prestate `100` and the empty proof. -/
theorem alpha_step_case_witness :
    (alphaSolveClaimCore idProvider 4 claim16Wrong 4 true).1 =
      .ok (.Step true 4 100 []) :=
  alpha_step_case idProvider 4 claim16Wrong 4 true 16 100 1015 [15]
    (by decide) (by decide) (by decide) rfl rfl rfl rfl

open Gindex in
/-- C9 (visited rollback). If `solve_claim` fails because one of the
rollback-guarded provider calls (`state_hash`, `state_at`, `proof_at`)
failed — i.e. it errors while the absolute prestate is available, the one
call propagated without rollback — the observed claim ends with
`visited = false`; if it returns a response, the claim ends with
`visited = true`. -/
theorem visited_rollback (P : TraceProvider) (D : Nat) (c : ClaimData) (i : Nat)
    (ar : Bool) :
    (P.absolute_prestate.isSome = true →
      ∀ e, (alphaSolveClaimCore P D c i ar).1 = .error e →
        (alphaSolveClaimCore P D c i ar).2.visited = false) ∧
    (∀ r, (alphaSolveClaimCore P D c i ar).1 = .ok r →
      (alphaSolveClaimCore P D c i ar).2.visited = true) := by
  by_cases h1 : depth c.position % 2 = (if ar then 1 else 0)
  · refine ⟨?_, ?_⟩
    · intro habs e herr
      simp only [alphaSolveClaimCore, if_pos h1] at herr
      cases herr
    · intro r hok
      simp only [alphaSolveClaimCore, if_pos h1]
  · by_cases h2 : c.parent_index = U32_MAX ∧ ar = true
    · cases hA : P.state_hash (make_move c.position true) with
      | none =>
        refine ⟨?_, ?_⟩
        · intro habs e herr
          simp only [alphaSolveClaimCore, fetchStateHash, if_neg h1, if_pos h2, hA]
        · intro r hok
          simp only [alphaSolveClaimCore, fetchStateHash, if_neg h1, if_pos h2,
            hA] at hok
          cases hok
      | some hh =>
        refine ⟨?_, ?_⟩
        · intro habs e herr
          simp only [alphaSolveClaimCore, fetchStateHash, if_neg h1, if_pos h2,
            hA] at herr
          cases herr
        · intro r hok
          simp only [alphaSolveClaimCore, fetchStateHash, if_neg h1, if_pos h2, hA]
    · cases hB : P.state_hash c.position with
      | none =>
        refine ⟨?_, ?_⟩
        · intro habs e herr
          simp only [alphaSolveClaimCore, fetchStateHash, if_neg h1, if_neg h2, hB]
        · intro r hok
          simp only [alphaSolveClaimCore, fetchStateHash, if_neg h1, if_neg h2,
            hB] at hok
          cases hok
      | some hh =>
        by_cases h3 : depth c.position = D
        · by_cases h4 : index_at_depth c.position = 0 ∧ (hh != c.value) = true
          · cases hC : P.absolute_prestate with
            | none =>
              refine ⟨?_, ?_⟩
              · intro habs e herr
                cases habs
              · intro r hok
                simp only [alphaSolveClaimCore, fetchStateHash, if_neg h1,
                  if_neg h2, hB, if_pos h3, if_pos h4, hC] at hok
                cases hok
            | some pa =>
              refine ⟨?_, ?_⟩
              · intro habs e herr
                simp only [alphaSolveClaimCore, fetchStateHash, if_neg h1,
                  if_neg h2, hB, if_pos h3, if_pos h4, hC] at herr
                cases herr
              · intro r hok
                simp only [alphaSolveClaimCore, fetchStateHash, if_neg h1,
                  if_neg h2, hB, if_pos h3, if_pos h4, hC]
          · cases hD : P.state_at (c.position - (if (hh != c.value) = true then 1 else 0)) with
            | none =>
              refine ⟨?_, ?_⟩
              · intro habs e herr
                simp only [alphaSolveClaimCore, fetchStateHash, fetchStateAt,
                  if_neg h1, if_neg h2, hB, if_pos h3, if_neg h4, hD]
              · intro r hok
                simp only [alphaSolveClaimCore, fetchStateHash, fetchStateAt,
                  if_neg h1, if_neg h2, hB, if_pos h3, if_neg h4, hD] at hok
                cases hok
            | some ps =>
              cases hE : P.proof_at (c.position - (if (hh != c.value) = true then 1 else 0)) with
              | none =>
                refine ⟨?_, ?_⟩
                · intro habs e herr
                  simp only [alphaSolveClaimCore, fetchStateHash, fetchStateAt,
                    fetchProofAt, if_neg h1, if_neg h2, hB, if_pos h3, if_neg h4,
                    hD, hE]
                · intro r hok
                  simp only [alphaSolveClaimCore, fetchStateHash, fetchStateAt,
                    fetchProofAt, if_neg h1, if_neg h2, hB, if_pos h3, if_neg h4,
                    hD, hE] at hok
                  cases hok
              | some pf =>
                refine ⟨?_, ?_⟩
                · intro habs e herr
                  simp only [alphaSolveClaimCore, fetchStateHash, fetchStateAt,
                    fetchProofAt, if_neg h1, if_neg h2, hB, if_pos h3, if_neg h4,
                    hD, hE] at herr
                  cases herr
                · intro r hok
                  simp only [alphaSolveClaimCore, fetchStateHash, fetchStateAt,
                    fetchProofAt, if_neg h1, if_neg h2, hB, if_pos h3, if_neg h4,
                    hD, hE]
        · cases hF : P.state_hash (make_move c.position (hh != c.value)) with
          | none =>
            refine ⟨?_, ?_⟩
            · intro habs e herr
              simp only [alphaSolveClaimCore, fetchStateHash, if_neg h1,
                if_neg h2, hB, if_neg h3, hF]
            · intro r hok
              simp only [alphaSolveClaimCore, fetchStateHash, if_neg h1,
                if_neg h2, hB, if_neg h3, hF] at hok
              cases hok
          | some hm =>
            refine ⟨?_, ?_⟩
            · intro habs e herr
              simp only [alphaSolveClaimCore, fetchStateHash, if_neg h1,
                if_neg h2, hB, if_neg h3, hF] at herr
              cases herr
            · intro r hok
              simp only [alphaSolveClaimCore, fetchStateHash, if_neg h1,
                if_neg h2, hB, if_neg h3, hF]

/-- A provider that fails every `state_hash` query. -/
def failingProvider : TraceProvider where
  absolute_prestate := some 100
  state_at := fun p => some (1000 + p)
  state_hash := fun _ => none
  proof_at := fun p => some [p]

/-- Witness for C9: a failed `state_hash` call rolls the visited flag back to
`false`, and a successful solve leaves it `true`. -/
theorem visited_rollback_witness :
    (alphaSolveClaimCore failingProvider 4 claim4Wrong 2 true).2.visited = false ∧
    (alphaSolveClaimCore idProvider 4 claim4Wrong 2 true).2.visited = true :=
  ⟨(visited_rollback failingProvider 4 claim4Wrong 2 true).1 rfl () rfl,
   (visited_rollback idProvider 4 claim4Wrong 2 true).2 (.Move true 2 8) rfl⟩
namespace Gindex

/-- A nonzero `u128` position sits between consecutive powers of two at its
depth. -/
theorem depth_spec (p : Nat) (h1 : 1 ≤ p) (h128 : p < 2 ^ 128) :
    2 ^ depth p ≤ p ∧ p < 2 ^ (depth p + 1) := by
  rw [depth_eq_log2 p h128]
  exact ⟨Nat.log2_self_le (by omega), Nat.lt_log2_self⟩

/-- The helper `depthAux` dominates any exponent whose power fits under `p` (within fuel). -/
theorem depthAux_ge (fuel : Nat) : ∀ p k, k ≤ fuel → 2 ^ k ≤ p → k ≤ depthAux fuel p := by
  induction fuel with
  | zero =>
    intro p k hk hp
    omega
  | succ fuel ih =>
    intro p k hk hp
    cases k with
    | zero => omega
    | succ k =>
      have hp2 : ¬ p < 2 := by
        have : (2 : Nat) ≤ 2 ^ (k + 1) := by
          calc (2 : Nat) = 2 ^ 1 := by norm_num
          _ ≤ 2 ^ (k + 1) := Nat.pow_le_pow_right (by norm_num) (by omega)
        omega
      have hdiv : 2 ^ k ≤ p / 2 := by
        rw [Nat.pow_succ] at hp
        omega
      simp only [depthAux, if_neg hp2]
      have := ih (p / 2) k (by omega) hdiv
      omega

/-- A position of depth at most `D ≤ 127` is smaller than `2^(D+1)`. -/
theorem lt_two_pow_of_depth_le (p D : Nat) (hD : D ≤ 127) (h : depth p ≤ D) :
    p < 2 ^ (D + 1) := by
  by_contra hge
  push_neg at hge
  have := depthAux_ge 128 p (D + 1) (by omega) hge
  unfold depth at h
  omega

end Gindex

/-- A number that is `2 mod 4` is not divisible by `2^k` for any `k ≥ 2`. -/
theorem mod_pow_ne_zero_of_mod_four (n k : Nat) (h4 : n % 4 = 2) (hk : 2 ≤ k) :
    n % 2 ^ k ≠ 0 := by
  intro h0
  have hdvd : 2 ^ k ∣ n := Nat.dvd_of_mod_eq_zero h0
  have h4d : (4 : Nat) ∣ 2 ^ k := by
    have h := Nat.pow_dvd_pow 2 hk
    norm_num at h
    exact h
  have : (4 : Nat) ∣ n := dvd_trans h4d hdvd
  omega

open Gindex in
/-- In the chad step case, a defend move (`make_move p false`) from a claim
whose depth is not `split_depth + 1` never lands on the first leaf of an
execution sub-game: its `index_at_depth` is `2 mod 4`, while the sub-game
width `2^(D - S)` is a multiple of `4`. -/
theorem chad_defend_step_mod_ne (S D p : Nat) (hSD : S < D) (hD : D ≤ 63)
    (hdep : depth p ≤ D) (hne : depth p ≠ S + 1)
    (hstep : ¬ depth (make_move p false) ≤ D) :
    index_at_depth (make_move p false) % 2 ^ (D - S) ≠ 0 := by
  have hD1 : 1 ≤ D := by omega
  by_cases hp0 : p = 0
  · exfalso
    apply hstep
    subst hp0
    have hmv : make_move 0 false = 2 := by decide
    have hd2 : depth 2 = 1 := by decide
    rw [hmv, hd2]
    omega
  have h1 : 1 ≤ p := by omega
  have h128 : p < 2 ^ 128 :=
    Nat.lt_of_lt_of_le (lt_two_pow_of_depth_le p D (by omega) hdep)
      (Nat.pow_le_pow_right (by norm_num) (by omega))
  obtain ⟨hlo, hhi⟩ := depth_spec p h1 h128
  -- decompose p = 2^d + j
  have hj : p - 2 ^ depth p < 2 ^ depth p := by
    have h2 := two_pow_succ (depth p)
    omega
  have hpd : p = 2 ^ depth p + (p - 2 ^ depth p) := by omega
  -- d ≥ 1: at depth 0 the only position is 1, whose defend move has depth 1 ≤ D
  have hd1 : 1 ≤ depth p := by
    by_contra hd0
    have hdz : depth p = 0 := by omega
    have hp1 : p = 1 := by
      rw [hdz] at hlo hhi
      omega
    apply hstep
    subst hp1
    have hmv : make_move 1 false = 2 := by decide
    have hd2 : depth 2 = 1 := by decide
    rw [hmv, hd2]
    omega
  have hmv := make_move_defend_pow (depth p) (p - 2 ^ depth p) hd1 (by omega) hj
  rw [← hpd] at hmv
  -- the move sits one level deeper, so depth p = D in the step case
  have hidx : (if (p - 2 ^ depth p) % 2 = 0
      then 2 * (p - 2 ^ depth p) + 2 else 2 * (p - 2 ^ depth p)) < 2 ^ (depth p + 1) := by
    have h2 := two_pow_succ (depth p)
    have hpow2 : (2 : Nat) ^ depth p % 2 = 0 := by
      rcases Nat.exists_eq_add_of_le hd1 with ⟨e, he⟩
      rw [he, Nat.pow_add, Nat.pow_one]
      omega
    rcases Nat.mod_two_eq_zero_or_one (p - 2 ^ depth p) with hpar | hpar
    · rw [if_pos hpar]
      omega
    · rw [if_neg (by omega)]
      omega
  have hmdep : depth (make_move p false) = depth p + 1 := by
    rw [hmv]
    exact depth_pow_add (depth p + 1) _ (by omega) hidx
  have hdD : depth p = D := by
    rw [hmdep] at hstep
    omega
  -- the move's index is 2 mod 4
  have hmidx : index_at_depth (make_move p false) % 4 = 2 := by
    rw [hmv, index_at_depth_pow_add (depth p + 1) _ (by omega) hidx]
    rcases Nat.mod_two_eq_zero_or_one (p - 2 ^ depth p) with hpar | hpar
    · rw [if_pos hpar]
      omega
    · rw [if_neg (by omega)]
      omega
  exact mod_pow_ne_zero_of_mod_four _ _ hmidx (by omega)

open Gindex in
/-- C5 (chad step-case prestate selection). When the chad solver's computed
move position exceeds the maximum depth and a `Step` is emitted, the prestate
is the absolute prestate of the execution sub-game exactly when
`index_at_depth(move_pos) % 2^(max_depth - split_depth) = 0` (in which case the
step is necessarily an attack on the sub-game's first leaf); otherwise a defend
step carries the state committed to at `claim.position` and an attack step the
state committed to at `claim.position - 1`. Hypotheses: `split_depth <
max_depth ≤ 63` and `depth(claim.position) ≤ max_depth` (the game-state
invariants). -/
theorem chad_step_prestate (Q : ChadTraceProvider) (S D : Nat) (c : ClaimData)
    (i : Nat) (ar atk : Bool) (pre : Nat) (prf : List Nat)
    (hSD : S < D) (hD : D ≤ 63) (hdep : depth c.position ≤ D)
    (hok : (chadSolveClaimCore Q S D c i ar).1 = .ok (.Step atk i pre prf)) :
    (index_at_depth (make_move c.position atk) % 2 ^ (D - S) = 0 →
      atk = true ∧ Q.absolute_prestate (make_move c.position atk) = some pre) ∧
    (index_at_depth (make_move c.position atk) % 2 ^ (D - S) ≠ 0 →
      (atk = false → Q.state_at c.position = some pre) ∧
      (atk = true → Q.state_at (c.position - 1) = some pre)) := by
  cases hsh : Q.state_hash c.position with
  | none =>
    simp only [chadSolveClaimCore, chadFetchStateHash, hsh] at hok
    cases hok
  | some h =>
    simp only [chadSolveClaimCore, chadFetchStateHash, chadFetchStateAt,
      chadFetchProofAt, chadFetchAbsolutePrestate, hsh] at hok
    by_cases hr : c.parent_index = U32_MAX
    · rw [if_pos hr] at hok
      exfalso
      by_cases hcond : (h == c.value &&
          (ar != decide (depth c.position % 2 = 0))) = true
      · rw [if_pos hcond] at hok
        have h2 : Except.ok (FaultSolverResponse.Skip i) =
            Except.ok (FaultSolverResponse.Step atk i pre prf) := hok
        injection h2 with h3
        cases h3
      · rw [if_neg hcond] at hok
        cases hsh2 : Q.state_hash (make_move c.position true) with
        | none =>
          rw [hsh2] at hok
          have h2 : (Except.error () : Except Unit FaultSolverResponse) =
              Except.ok (FaultSolverResponse.Step atk i pre prf) := hok
          cases h2
        | some h3 =>
          rw [hsh2] at hok
          have h2 : Except.ok (FaultSolverResponse.Move true i h3) =
              Except.ok (FaultSolverResponse.Step atk i pre prf) := hok
          injection h2 with h4
          cases h4
    · rw [if_neg hr] at hok
      by_cases hg1 : depth c.position = S + 1 ∧ (h == c.value) = true
      · rw [if_pos hg1] at hok
        exfalso
        have h2 : Except.ok (FaultSolverResponse.Skip i) =
            Except.ok (FaultSolverResponse.Step atk i pre prf) := hok
        injection h2 with h3
        cases h3
      · rw [if_neg hg1] at hok
        by_cases hrl : (ar != decide (depth c.position % 2 = 0)) = true
        · rw [if_pos hrl] at hok
          exfalso
          have h2 : Except.ok (FaultSolverResponse.Skip i) =
              Except.ok (FaultSolverResponse.Step atk i pre prf) := hok
          injection h2 with h3
          cases h3
        · rw [if_neg hrl] at hok
          by_cases hmd : depth (make_move c.position (!(h == c.value))) ≤ D
          · rw [if_pos hmd] at hok
            exfalso
            cases hsh3 : Q.state_hash (make_move c.position (!(h == c.value))) with
            | none =>
              rw [hsh3] at hok
              have h2 : (Except.error () : Except Unit FaultSolverResponse) =
                  Except.ok (FaultSolverResponse.Step atk i pre prf) := hok
              cases h2
            | some hm =>
              rw [hsh3] at hok
              have h2 : Except.ok (FaultSolverResponse.Move (!(h == c.value)) i hm) =
                  Except.ok (FaultSolverResponse.Step atk i pre prf) := hok
              injection h2 with h3
              cases h3
          · rw [if_neg hmd] at hok
            by_cases hmodne :
                index_at_depth (make_move c.position (!(h == c.value))) %
                  2 ^ (D - S) ≠ 0
            · rw [if_pos hmodne] at hok
              by_cases hla : (h == c.value) = true
              · rw [if_pos hla] at hok
                cases hstA : Q.state_at c.position with
                | none =>
                  rw [hstA] at hok
                  have h2 : (Except.error () : Except Unit FaultSolverResponse) =
                      Except.ok (FaultSolverResponse.Step atk i pre prf) := hok
                  cases h2
                | some ps =>
                  rw [hstA] at hok
                  cases hpfA : Q.proof_at (make_move c.position (!(h == c.value))) with
                  | none =>
                    rw [hpfA] at hok
                    have h2 : (Except.error () : Except Unit FaultSolverResponse) =
                        Except.ok (FaultSolverResponse.Step atk i pre prf) := hok
                    cases h2
                  | some pf =>
                    rw [hpfA] at hok
                    have h2 : Except.ok
                        (FaultSolverResponse.Step (!(h == c.value)) i ps pf) =
                        Except.ok (FaultSolverResponse.Step atk i pre prf) := hok
                    injection h2 with h3
                    injection h3 with hb hi2 hpre hprf
                    subst hb
                    rw [hla, Bool.not_true] at hmodne ⊢
                    refine ⟨fun hx => absurd hx hmodne, fun _ => ⟨fun _ => ?_, ?_⟩⟩
                    · rw [← hpre]
                    · intro hfalse
                      cases hfalse
              · rw [if_neg hla] at hok
                have hlaf : (h == c.value) = false := by
                  cases hv : (h == c.value)
                  · rfl
                  · exact absurd hv hla
                cases hstA : Q.state_at (c.position - 1) with
                | none =>
                  rw [hstA] at hok
                  have h2 : (Except.error () : Except Unit FaultSolverResponse) =
                      Except.ok (FaultSolverResponse.Step atk i pre prf) := hok
                  cases h2
                | some ps =>
                  rw [hstA] at hok
                  cases hpfA : Q.proof_at (make_move c.position (!(h == c.value))) with
                  | none =>
                    rw [hpfA] at hok
                    have h2 : (Except.error () : Except Unit FaultSolverResponse) =
                        Except.ok (FaultSolverResponse.Step atk i pre prf) := hok
                    cases h2
                  | some pf =>
                    rw [hpfA] at hok
                    have h2 : Except.ok
                        (FaultSolverResponse.Step (!(h == c.value)) i ps pf) =
                        Except.ok (FaultSolverResponse.Step atk i pre prf) := hok
                    injection h2 with h3
                    injection h3 with hb hi2 hpre hprf
                    subst hb
                    rw [hlaf, Bool.not_false] at hmodne ⊢
                    refine ⟨fun hx => absurd hx hmodne, fun _ => ⟨?_, fun _ => ?_⟩⟩
                    · intro hfalse
                      cases hfalse
                    · rw [← hpre]
            · rw [if_neg hmodne] at hok
              have hmod0 :
                  index_at_depth (make_move c.position (!(h == c.value))) %
                    2 ^ (D - S) = 0 := by
                by_contra hx
                exact hmodne hx
              cases habs : Q.absolute_prestate (make_move c.position (!(h == c.value))) with
              | none =>
                rw [habs] at hok
                have h2 : (Except.error () : Except Unit FaultSolverResponse) =
                    Except.ok (FaultSolverResponse.Step atk i pre prf) := hok
                cases h2
              | some pa =>
                rw [habs] at hok
                cases hpfA : Q.proof_at (make_move c.position (!(h == c.value))) with
                | none =>
                  rw [hpfA] at hok
                  have h2 : (Except.error () : Except Unit FaultSolverResponse) =
                      Except.ok (FaultSolverResponse.Step atk i pre prf) := hok
                  cases h2
                | some pf =>
                  rw [hpfA] at hok
                  have h2 : Except.ok
                      (FaultSolverResponse.Step (!(h == c.value)) i pa pf) =
                      Except.ok (FaultSolverResponse.Step atk i pre prf) := hok
                  injection h2 with h3
                  injection h3 with hb hi2 hpre hprf
                  subst hb
                  -- the mod-0 step is necessarily an attack
                  have hlaf : (h == c.value) = false := by
                    cases hv : (h == c.value)
                    · rfl
                    · exfalso
                      have hne : depth c.position ≠ S + 1 := fun hd1 =>
                        hg1 ⟨hd1, hv⟩
                      have hmd2 : ¬ depth (make_move c.position false) ≤ D := by
                        rw [hv, Bool.not_true] at hmd
                        exact hmd
                      have hmod2 :
                          index_at_depth (make_move c.position false) %
                            2 ^ (D - S) = 0 := by
                        rw [hv, Bool.not_true] at hmod0
                        exact hmod0
                      exact chad_defend_step_mod_ne S D c.position hSD hD hdep
                        hne hmd2 hmod2
                  rw [hlaf, Bool.not_false] at hmod0 ⊢
                  refine ⟨fun _ => ⟨rfl, ?_⟩, fun hx => absurd hmod0 hx⟩
                  rw [← hpre]
                  rw [hlaf, Bool.not_false] at habs
                  exact habs

/-- A wrong claim at leaf position 17 (depth 4, `index_at_depth = 1`). -/
def claim17Wrong : ClaimData where
  parent_index := 5
  countered := false
  value := 999
  position := 17
  clock := 0
  visited := false

/-- Witness for C5: attacking the wrong leaf at position 17 steps with the
prestate committed to at position 16 (`state_at 16 = some 1016`), since the
move position 34 is not a sub-game first leaf (`2 % 4 ≠ 0`). -/
theorem chad_step_prestate_witness :
    idChadProvider.state_at (claim17Wrong.position - 1) = some 1016 :=
  ((chad_step_prestate idChadProvider 2 4 claim17Wrong 3 true true 1016 [34]
      (by decide) (by decide) (by decide) rfl).2 (by decide)).2 rfl

/-! ## Resolver (`state.rs`, `FaultDisputeState::resolve`) -/

/-- The scan loop of `resolve`: `for i in (0..=left_most_index).rev()` with
`left_most_index` initially `state.len() - 1`. `resolveScanGo claims D i bt bi`
still has the indices `i-1, i-2, …, 0` to visit, with accumulators
`bt = left_most_trace_index` and `bi = left_most_index`. Uncountered claims
with a strictly smaller `trace_index` update both accumulators, recording
`i + 1`. The in-loop `get` cannot fail for indices below the length, but is
kept fallible to mirror `.ok_or(…)?`. -/
def resolveScanGo (claims : List ClaimData) (max_depth : Nat) :
    Nat → Nat → Nat → Except String (Nat × Nat)
  | 0, bt, bi => .ok (bt, bi)
  | i + 1, bt, bi =>
    match claims[i]? with
    | none => .error "Could not fetch claim from state"
    | some claim =>
      if claim.countered then resolveScanGo claims max_depth i bt bi
      else if Gindex.trace_index claim.position max_depth < bt then
        resolveScanGo claims max_depth i
          (Gindex.trace_index claim.position max_depth) (i + 1)
      else resolveScanGo claims max_depth i bt bi

/-- Rust: `FaultDisputeState::resolve(sim)` (state.rs), with the wall clock `now`
(`SystemTime::now()` seconds) passed explicitly. Returns the `Result` together
with the (possibly updated) state. `state.len() - 1` is truncated subtraction;
the Rust code panics on an empty claim vector, which the claims below never
exercise. `604800 >> 1` is the half game duration check and `now - timestamp`
is `u64` subtraction (truncated here; identical when `timestamp ≤ now`). -/
def resolve (g : FaultDisputeState) (sim : Bool) (now : Nat) :
    Except String GameStatus × FaultDisputeState :=
  if g.status ≠ GameStatus.InProgress then (.ok g.status, g)
  else
    match resolveScanGo g.state g.max_depth g.state.length U64_MAX
      (g.state.length - 1) with
    | .error e => (.error e, g)
    | .ok (left_most_trace_index, left_most_index) =>
      match g.state[left_most_index]? with
      | none => (.error "Could not fetch claim from state", g)
      | some left_most_uncontested =>
        let status := if Gindex.depth left_most_uncontested.position % 2 = 0 ∧
            left_most_trace_index ≠ U64_MAX
          then GameStatus.DefenderWins else GameStatus.ChallengerWins
        if sim then (.ok status, g)
        else
          let opposing_clock? :=
            if left_most_uncontested.parent_index = U32_MAX then
              some left_most_uncontested.clock
            else
              (g.state[left_most_uncontested.parent_index]?).map (fun c => c.clock)
          match opposing_clock? with
          | none => (.error "Could not fetch parent claim from state", g)
          | some opposing_clock =>
            if ChessClock.duration opposing_clock +
                (now - ChessClock.timestamp opposing_clock) ≤ 604800 >>> 1 then
              (.error "Clocks have not expired", g)
            else (.ok status, { g with status := status })

/-- Characterization of the scan loop: the accumulator pair returned by
`resolveScanGo` over the remaining indices `[0, i)` is the running strict
minimum of the uncountered trace indices, and on an improvement the recorded
index is one past the position of the *last* strict improvement — i.e. the
largest index attaining the minimum. -/
theorem resolveScanGo_spec (claims : List ClaimData) (D : Nat) :
    ∀ i bt0 bi0, i ≤ claims.length →
    ∃ bt bi, resolveScanGo claims D i bt0 bi0 = .ok (bt, bi) ∧
      bt ≤ bt0 ∧
      (∀ j c, j < i → claims[j]? = some c → c.countered = false →
        bt ≤ Gindex.trace_index c.position D) ∧
      ((bt = bt0 ∧ bi = bi0) ∨
        (bt < bt0 ∧ ∃ j c, j < i ∧ claims[j]? = some c ∧ c.countered = false ∧
          Gindex.trace_index c.position D = bt ∧ bi = j + 1 ∧
          (∀ k c2, j < k → k < i → claims[k]? = some c2 → c2.countered = false →
            bt < Gindex.trace_index c2.position D))) := by
  intro i
  induction i with
  | zero =>
    intro bt0 bi0 hlen
    exact ⟨bt0, bi0, rfl, le_refl _, fun j c hj => absurd hj (by omega),
      Or.inl ⟨rfl, rfl⟩⟩
  | succ i ih =>
    intro bt0 bi0 hlen
    have hi : i < claims.length := by omega
    have hgets : claims[i]? = some claims[i] := List.getElem?_eq_getElem hi
    cases hcnt : claims[i].countered with
    | true =>
      obtain ⟨bt, bi, hgo, hle, hlb, hcase⟩ := ih bt0 bi0 (by omega)
      refine ⟨bt, bi, ?_, hle, ?_, ?_⟩
      · simp only [resolveScanGo, hgets, hcnt, if_pos]
        exact hgo
      · intro j c hj hc hcc
        rcases Nat.lt_or_ge j i with hj2 | hj2
        · exact hlb j c hj2 hc hcc
        · have hji : j = i := by omega
          subst hji
          rw [hgets] at hc
          injection hc with hc
          rw [hc] at hcnt
          rw [hcnt] at hcc
          cases hcc
      · rcases hcase with h | ⟨hlt, j, c, hj, hc, hcc, htr, hbi, hk⟩
        · exact Or.inl h
        · refine Or.inr ⟨hlt, j, c, by omega, hc, hcc, htr, hbi, ?_⟩
          intro k c2 hk1 hk2 hck hcck
          rcases Nat.lt_or_ge k i with hk3 | hk3
          · exact hk k c2 hk1 hk3 hck hcck
          · have hki : k = i := by omega
            subst hki
            rw [hgets] at hck
            injection hck with hck
            rw [hck] at hcnt
            rw [hcnt] at hcck
            cases hcck
    | false =>
      by_cases hupd : Gindex.trace_index claims[i].position D < bt0
      · obtain ⟨bt, bi, hgo, hle, hlb, hcase⟩ :=
          ih (Gindex.trace_index claims[i].position D) (i + 1) (by omega)
        refine ⟨bt, bi, ?_, by omega, ?_, ?_⟩
        · simp only [resolveScanGo, hgets, hcnt, if_neg, Bool.false_eq_true,
            not_false_iff, if_pos hupd]
          exact hgo
        · intro j c hj hc hcc
          rcases Nat.lt_or_ge j i with hj2 | hj2
          · exact hlb j c hj2 hc hcc
          · have hji : j = i := by omega
            subst hji
            rw [hgets] at hc
            injection hc with hc
            rw [← hc]
            exact hle
        · rcases hcase with ⟨hbt, hbi⟩ | ⟨hlt, j, c, hj, hc, hcc, htr, hbi, hk⟩
          · refine Or.inr ⟨by omega, i, claims[i], by omega, hgets, hcnt, ?_, ?_, ?_⟩
            · omega
            · exact hbi
            · intro k c2 hk1 hk2 hck hcck
              omega
          · refine Or.inr ⟨by omega, j, c, by omega, hc, hcc, htr, hbi, ?_⟩
            intro k c2 hk1 hk2 hck hcck
            rcases Nat.lt_or_ge k i with hk3 | hk3
            · exact hk k c2 hk1 hk3 hck hcck
            · have hki : k = i := by omega
              subst hki
              rw [hgets] at hck
              injection hck with hck
              rw [← hck]
              omega
      · obtain ⟨bt, bi, hgo, hle, hlb, hcase⟩ := ih bt0 bi0 (by omega)
        refine ⟨bt, bi, ?_, hle, ?_, ?_⟩
        · simp only [resolveScanGo, hgets, hcnt, if_neg, Bool.false_eq_true,
            not_false_iff, if_neg hupd]
          exact hgo
        · intro j c hj hc hcc
          rcases Nat.lt_or_ge j i with hj2 | hj2
          · exact hlb j c hj2 hc hcc
          · have hji : j = i := by omega
            subst hji
            rw [hgets] at hc
            injection hc with hc
            rw [← hc]
            omega
        · rcases hcase with h | ⟨hlt, j, c, hj, hc, hcc, htr, hbi, hk⟩
          · exact Or.inl h
          · refine Or.inr ⟨hlt, j, c, by omega, hc, hcc, htr, hbi, ?_⟩
            intro k c2 hk1 hk2 hck hcck
            rcases Nat.lt_or_ge k i with hk3 | hk3
            · exact hk k c2 hk1 hk3 hck hcck
            · have hki : k = i := by omega
              subst hki
              rw [hgets] at hck
              injection hck with hck
              rw [← hck]
              omega

open Gindex in
/-- C6 (resolution scan and winner rule). On an `InProgress` game, the scan
underlying `resolve` produces a pair `(bt, bi)` such that: `bt` is a lower
bound of the trace indices of all uncountered claims; either no uncountered
claim improved on `u64::MAX` and `bi` is the initial `len - 1`, or `bt` is
attained at an uncountered claim index `j`, `bi = j + 1` is recorded, and no
claim with a *larger* index attains `bt` (the later-index claim wins because
the scan runs from the last index down to 0 with a strict comparison).
`resolve` then reads the claim at the recorded index `bi` and returns
`DefenderWins` exactly when that claim's depth is even and `bt ≠ u64::MAX`,
otherwise `ChallengerWins`. -/
theorem resolve_scan_winner (g : FaultDisputeState) (now : Nat) (bt bi : Nat)
    (hst : g.status = GameStatus.InProgress)
    (hgo : resolveScanGo g.state g.max_depth g.state.length U64_MAX
      (g.state.length - 1) = .ok (bt, bi)) :
    (∀ (j : Nat) (c : ClaimData), g.state[j]? = some c → c.countered = false →
      bt ≤ trace_index c.position g.max_depth) ∧
    ((bt = U64_MAX ∧ bi = g.state.length - 1) ∨
      (bt < U64_MAX ∧ ∃ (j : Nat) (c : ClaimData),
        g.state[j]? = some c ∧ c.countered = false ∧
        trace_index c.position g.max_depth = bt ∧ bi = j + 1 ∧
        (∀ (k : Nat) (c2 : ClaimData), j < k → g.state[k]? = some c2 →
          c2.countered = false →
          bt < trace_index c2.position g.max_depth))) ∧
    (∀ cstar, g.state[bi]? = some cstar →
      resolve g true now =
        (.ok (if depth cstar.position % 2 = 0 ∧ bt ≠ U64_MAX
          then GameStatus.DefenderWins else GameStatus.ChallengerWins), g)) ∧
    (g.state[bi]? = none →
      resolve g true now = (.error "Could not fetch claim from state", g)) := by
  obtain ⟨bt2, bi2, hgo2, hle, hlb, hcase⟩ := resolveScanGo_spec g.state
    g.max_depth g.state.length U64_MAX (g.state.length - 1) (le_refl _)
  rw [hgo] at hgo2
  injection hgo2 with hgo3
  injection hgo3 with hbt hbi
  subst hbt
  subst hbi
  have hbound : ∀ j (c : ClaimData), g.state[j]? = some c → j < g.state.length := by
    intro j c hc
    by_contra hj
    push_neg at hj
    rw [List.getElem?_eq_none hj] at hc
    cases hc
  refine ⟨?_, ?_, ?_, ?_⟩
  · intro j c hc hcc
    exact hlb j c (hbound j c hc) hc hcc
  · rcases hcase with ⟨hbt, hbi⟩ | ⟨hlt, j, c, hj, hc, hcc, htr, hbi, hk⟩
    · exact Or.inl ⟨hbt, hbi⟩
    · refine Or.inr ⟨hlt, j, c, hc, hcc, htr, hbi, ?_⟩
      intro k c2 hk1 hck hcck
      exact hk k c2 hk1 (hbound k c2 hck) hck hcck
  · intro cstar hcstar
    unfold resolve
    rw [if_neg (fun hcon => hcon hst)]
    simp only [hgo, hcstar]
    rfl
  · intro hnone
    unfold resolve
    rw [if_neg (fun hcon => hcon hst)]
    simp only [hgo, hnone]

/-- Claims of a small concrete game: an uncountered root at position 1, an
uncountered attack at position 2, and a countered claim at position 4. -/
def c6Claim0 : ClaimData where
  parent_index := U32_MAX
  countered := false
  value := 11
  position := 1
  clock := 0
  visited := true

/-- See `c6Claim0`. -/
def c6Claim1 : ClaimData where
  parent_index := 0
  countered := false
  value := 22
  position := 2
  clock := 0
  visited := true

/-- See `c6Claim0`. -/
def c6Claim2 : ClaimData where
  parent_index := 1
  countered := true
  value := 33
  position := 4
  clock := 0
  visited := true

/-- A three-claim `InProgress` game (max depth 4). The scan of `resolve` picks
the uncountered claim at index 1 (trace index 7) and records `bi = 2`. -/
def c6Game : FaultDisputeState where
  state := [c6Claim0, c6Claim1, c6Claim2]
  root_claim := 11
  status := GameStatus.InProgress
  split_depth := 2
  max_depth := 4

/-- Witness for C6: on `c6Game` the scan returns `(7, 2)`; the claim read at
index 2 sits at depth 2 (even) and `7 ≠ u64::MAX`, so simulated resolution
returns `DefenderWins`. -/
theorem resolve_scan_winner_witness :
    resolve c6Game true 0 = (.ok GameStatus.DefenderWins, c6Game) :=
  (resolve_scan_winner c6Game 0 7 2 rfl rfl).2.2.1 c6Claim2 rfl

open Gindex ChessClock in
/-- C7 (clock rule). With `sim = false` and an `InProgress` game whose scan
and claim reads succeed, `resolve` updates the stored status and returns the
winner exactly when the opposing clock — the chosen claim's parent's clock, or
its own clock when it is the root — satisfies
`duration + (now - timestamp) > 302400` (`= GAME_DURATION >> 1`); otherwise it
fails with the clocks-not-expired error and leaves the game unchanged. -/
theorem resolve_clock_rule (g : FaultDisputeState) (now : Nat) (bt bi : Nat)
    (cstar : ClaimData) (oc : Nat)
    (hst : g.status = GameStatus.InProgress)
    (hgo : resolveScanGo g.state g.max_depth g.state.length U64_MAX
      (g.state.length - 1) = .ok (bt, bi))
    (hcstar : g.state[bi]? = some cstar)
    (hoc : (if cstar.parent_index = U32_MAX then some cstar.clock
      else (g.state[cstar.parent_index]?).map (fun c => c.clock)) = some oc) :
    (duration oc + (now - timestamp oc) > 302400 →
      resolve g false now =
        (.ok (if depth cstar.position % 2 = 0 ∧ bt ≠ U64_MAX
          then GameStatus.DefenderWins else GameStatus.ChallengerWins),
         { g with status := (if depth cstar.position % 2 = 0 ∧ bt ≠ U64_MAX
          then GameStatus.DefenderWins else GameStatus.ChallengerWins) })) ∧
    (duration oc + (now - timestamp oc) ≤ 302400 →
      resolve g false now = (.error "Clocks have not expired", g)) := by
  have hhalf : (604800 >>> 1 : Nat) = 302400 := by decide
  unfold resolve
  rw [if_neg (fun hcon => hcon hst)]
  simp only [hgo, hcstar, hoc, hhalf]
  constructor
  · intro h
    have hcond : ¬ (duration oc + (now - timestamp oc) ≤ 302400) := by omega
    rw [if_neg hcond]
    rfl
  · intro h
    have hcond : duration oc + (now - timestamp oc) ≤ 302400 := h
    rw [if_pos hcond]
    rfl

/-- Witness for C7: on `c6Game`, the opposing clock is `c6Claim1.clock = 0`
(duration 0, timestamp 0); at `now = 302401` the game resolves for real and
stores `DefenderWins`, while at `now = 302400` it fails with the
clocks-not-expired error. -/
theorem resolve_clock_rule_witness :
    resolve c6Game false 302401 =
      (.ok GameStatus.DefenderWins, { c6Game with status := GameStatus.DefenderWins }) ∧
    resolve c6Game false 302400 = (.error "Clocks have not expired", c6Game) :=
  ⟨(resolve_clock_rule c6Game 302401 7 2 c6Claim2 0 rfl rfl rfl rfl).1 (by decide),
   (resolve_clock_rule c6Game 302400 7 2 c6Claim2 0 rfl rfl rfl rfl).2 (by decide)⟩

/-- A game whose claim vector holds exactly one claim: an uncountered root at
position 1. -/
def c10Game : FaultDisputeState where
  state := [{ parent_index := U32_MAX, countered := false, value := 5,
              position := 1, clock := 0, visited := true }]
  root_claim := 5
  status := GameStatus.InProgress
  split_depth := 2
  max_depth := 4

/-- C10 (off-by-one on a root-only game). On an `InProgress` game with a
single uncountered root claim, the scan records `left_most_index = 0 + 1 = 1`,
one past the end of the one-element claim vector, so the post-scan read fails
and `resolve` returns an error rather than a `GameStatus`, for both `sim`
values and any wall-clock time. -/
theorem resolve_root_only_errors (sim : Bool) (now : Nat) :
    resolve c10Game sim now = (.error "Could not fetch claim from state", c10Game) := by
  cases sim <;> rfl
